import Mathlib

/-!
Shallow embedding of the `redundant_clone` lint
(`src/clippy_lints/src/redundant_clone.rs`): a MIR-level analysis that flags
a `clone()` (or `to_owned()`, `to_string()`, `to_path_buf()`,
`to_os_string()`) of an owned value that is dropped without further use.

The embedding models the MIR fragment the lint consumes (locals, places,
operands, rvalues, statements, terminators, bodies), the type facts the lint
queries through the compiler (`is_copy`, `has_drop`, region presence,
def-path and type matching), the `MaybeStorageLive` gen/kill dataflow, the
possible-borrower relation (edge collection plus transitive closure, the
`TransitiveRelation` of `rustc_data_structures` modelled mathematically),
the call-shape recognizers, the movability walk, the downstream-use visitor
and the per-call-site decision of `check_fn`.
-/

namespace RedundantClone

/-! ## Type oracle model

Types are opaque to the lint except for the queries it makes: `is_copy`,
`has_drop` (Adt with a destructor), whether the type contains a region
(`ContainsRegion` visitor), peeling references (`walk_ptrs_ty_depth`) and
matching against the known def paths `STRING`, `PATH_BUF`, `OS_STRING`
(`match_type`).  Field and element types are carried so that place
projections can be typed (`Place::ty_from`). -/

inductive TyName where
  | string
  | pathBuf
  | osString
  | otherName (n : Nat)
deriving DecidableEq, Repr

/-- A type as seen by the lint: either a reference layer (with mutability)
or an Adt-like leaf carrying the oracle answers `is_copy`, `has_drop`,
"contains a region", its def-path name, its field types and its element
type (for `Index` projections). -/
inductive Ty where
  | ref (isMut : Bool) (pointee : Ty)
  | adt (copyFlag dropFlag regionFlag : Bool) (name : TyName)
        (fields : List Ty) (elem : Option Ty)

/-- `utils::is_copy`: shared references are `Copy`, mutable references are
not, Adts answer their oracle flag. -/
def isCopy : Ty → Bool
  | .ref m _ => !m
  | .adt c _ _ _ _ _ => c

/-- `utils::has_drop`: true for an Adt with a destructor, false otherwise. -/
def hasDrop : Ty → Bool
  | .ref _ _ => false
  | .adt _ d _ _ _ _ => d

/-- The `ContainsRegion` type visitor: a reference always contains a region,
an Adt answers whether its arguments carry one. -/
def containsRegion : Ty → Bool
  | .ref _ _ => true
  | .adt _ _ r _ _ _ => r

/-- Def-path name of the type for `match_type`; references match none of
the known Adt paths. -/
def tyName : Ty → TyName
  | .ref _ _ => .otherName 0
  | .adt _ _ _ n _ _ => n

/-- `utils::walk_ptrs_ty_depth`: peel reference layers, returning the inner
type and the number of layers peeled. -/
def walkPtrsTyDepth : Ty → Ty × Nat
  | .ref _ t =>
    let r := walkPtrsTyDepth t
    (r.1, r.2 + 1)
  | t => (t, 0)

/-- Known def paths consulted through `match_def_path`. -/
inductive FuncId where
  | cloneMethod
  | toOwnedMethod
  | toStringMethod
  | pathToPathBuf
  | osStrToOsString
  | derefMethod
  | otherFunc (n : Nat)
deriving DecidableEq, Repr

/-! ## MIR model -/

inductive ProjectionElem where
  | deref
  | field (idx : Nat)
  | index (lcl : Nat)
  | otherElem
deriving DecidableEq, Repr

inductive PlaceBase where
  | local (l : Nat)
  | static
deriving DecidableEq, Repr

structure Place where
  base : PlaceBase
  projection : List ProjectionElem
deriving DecidableEq, Repr

/-- Constants; the lint only ever inspects whether a call callee constant
has `FnDef` type (`is_call_with_ref_arg`). -/
inductive ConstVal where
  | fnDef (f : FuncId)
  | scalar
deriving DecidableEq, Repr

inductive Operand where
  | copy (p : Place)
  | move (p : Place)
  | const (c : ConstVal)
deriving DecidableEq, Repr

inductive Rvalue where
  | use (op : Operand)
  | ref (p : Place)
  | repeat (op : Operand)
  | cast (op : Operand)
  | unaryOp (op : Operand)
  | aggregate (ops : List Operand)
  | binaryOp (a b : Operand)
  | checkedBinaryOp (a b : Operand)
  | otherRv
deriving DecidableEq, Repr

inductive StatementKind where
  | assign (p : Place) (rv : Rvalue)
  | storageLive (l : Nat)
  | storageDead (l : Nat)
  | nop
deriving DecidableEq, Repr

structure Span where
  lo : Nat
  hi : Nat
deriving DecidableEq, Repr

structure SourceInfo where
  span : Span
  fromExpansion : Bool
deriving DecidableEq, Repr

inductive TerminatorKind where
  | goto (target : Nat)
  | switchInt (discr : Operand) (targets : List Nat)
  | call (func : Operand) (args : List Operand)
         (destination : Option (Place × Nat)) (cleanup : Option Nat)
  | drop (place : Place) (target : Nat) (unwind : Option Nat)
  | ret
  | resume
deriving DecidableEq, Repr

structure Terminator where
  sourceInfo : SourceInfo
  kind : TerminatorKind
deriving DecidableEq, Repr

structure BasicBlockData where
  statements : List StatementKind
  terminator : Terminator
deriving DecidableEq, Repr

/-- A MIR body: blocks (block 0 is the start block), the declared type of
each local (local 0 is the return place) and the number of argument locals
(arguments are locals `1 ..= argCount`). -/
structure Body where
  blocks : List BasicBlockData
  localTys : List Ty
  argCount : Nat

structure Location where
  block : Nat
  statementIndex : Nat
deriving DecidableEq, Repr

/-- `TerminatorKind::successors`. -/
def termSuccessors : TerminatorKind → List Nat
  | .goto t => [t]
  | .switchInt _ ts => ts
  | .call _ _ dest cleanup => (dest.map Prod.snd).toList ++ cleanup.toList
  | .drop _ t unwind => [t] ++ unwind.toList
  | .ret => []
  | .resume => []

/-- Successors of the terminator of block `b` (empty for an out-of-range
block index). -/
def termSuccessorsAt (mir : Body) (b : Nat) : List Nat :=
  match mir.blocks[b]? with
  | some d => termSuccessors d.terminator.kind
  | none => []

/-- `Body::predecessors_for`: built by walking every block and pushing it
once per successor edge into `bb`, so a block appears with edge
multiplicity. -/
def predecessorsFor (mir : Body) (bb : Nat) : List Nat :=
  (List.range mir.blocks.length).flatMap fun b =>
    ((termSuccessorsAt mir b).filter (fun s => s == bb)).map fun _ => b

/-! ## Place typing -/

def projTy (t : Ty) : ProjectionElem → Option Ty
  | .deref =>
    match t with
    | .ref _ u => some u
    | _ => none
  | .field i =>
    match t with
    | .adt _ _ _ _ fs _ => fs[i]?
    | _ => none
  | .index _ =>
    match t with
    | .adt _ _ _ _ _ el => el
    | _ => none
  | .otherElem => none

def projListTy (t : Ty) : List ProjectionElem → Option Ty
  | [] => some t
  | e :: rest =>
    match projTy t e with
    | some u => projListTy u rest
    | none => none

/-- Type of the place formed by local `l` and projection chain `projs`
(`Place::ty_from`). -/
def localProjTy (tys : List Ty) (l : Nat) (projs : List ProjectionElem) : Option Ty :=
  (tys[l]?).bind fun t => projListTy t projs

/-- `Place::ty`.  The lint only types places with a `Local` base. -/
def placeTy (tys : List Ty) (p : Place) : Option Ty :=
  match p.base with
  | .local l => localProjTy tys l p.projection
  | .static => none

def containsRegionOpt : Option Ty → Bool
  | some t => containsRegion t
  | none => false

def hasDropOpt : Option Ty → Bool
  | some t => hasDrop t
  | none => false

/-! ## `MaybeStorageLive` dataflow

A direct model of the `BitDenotation` instance: gen/kill transfer with
`StorageLive` as gen and `StorageDead` as kill, no terminator effect, no
call-return effect, and argument locals live on entry to the start block.
The fixpoint is computed by iterating the one-step join/transfer function a
sufficient number of times (the lattice is a finite powerset, the step
function is monotone and inflationary, so a generous bound reaches the
least fixpoint the worklist solver computes). -/

structure GenKillSet where
  gen : Finset Nat
  kill : Finset Nat

def emptyGK : GenKillSet := ⟨∅, ∅⟩

def GenKillSet.genL (t : GenKillSet) (l : Nat) : GenKillSet :=
  ⟨insert l t.gen, t.kill.erase l⟩

def GenKillSet.killL (t : GenKillSet) (l : Nat) : GenKillSet :=
  ⟨t.gen.erase l, insert l t.kill⟩

def applyGK (t : GenKillSet) (s : Finset Nat) : Finset Nat :=
  (s \ t.kill) ∪ t.gen

/-- `MaybeStorageLive::statement_effect`. -/
def statementEffect (stmt : StatementKind) (trans : GenKillSet) : GenKillSet :=
  match stmt with
  | .storageLive l => trans.genL l
  | .storageDead l => trans.killL l
  | _ => trans

/-- `MaybeStorageLive::terminator_effect`: no effect. -/
def terminatorEffect (_k : TerminatorKind) (trans : GenKillSet) : GenKillSet :=
  trans

/-- `MaybeStorageLive::propagate_call_return`: nothing to do when a call
returns successfully. -/
def propagateCallReturn (s : Finset Nat) : Finset Nat := s

/-- `MaybeStorageLive::start_block_effect`: insert every argument local. -/
def startBlockEffect (mir : Body) : Finset Nat :=
  ((List.range mir.argCount).map fun i => i + 1).foldl (fun s a => insert a s) ∅

/-- Apply the statement effects of `stmts` in order to `s` (this is what the
cursor does when seeking within a block, and composing all of them is the
block transfer function of the solver). -/
def applyStmts (stmts : List StatementKind) (s : Finset Nat) : Finset Nat :=
  stmts.foldl (fun acc stmt => applyGK (statementEffect stmt emptyGK) acc) s

def totalStatements (mir : Body) : Nat :=
  (mir.blocks.map fun d => d.statements.length).sum

/-- Iteration budget that exceeds the height of the entry-set lattice. -/
def liveFuel (mir : Body) : Nat :=
  mir.blocks.length * (mir.localTys.length + totalStatements mir + mir.argCount + 1) + 1

def initLiveVec (mir : Body) : List (Finset Nat) :=
  (List.range mir.blocks.length).map fun bb =>
    if bb = 0 then startBlockEffect mir else ∅

/-- State flowing from block `b` to its successor `s`: the block transfer
applied to the entry state, with `propagate_call_return` (a no-op here)
applied on a call edge to the call destination; `dead_unwinds` is empty so
cleanup edges are propagated like the rest. -/
def succOut (mir : Body) (v : List (Finset Nat)) (b : Nat) (s : Nat) : Finset Nat :=
  match mir.blocks[b]? with
  | none => ∅
  | some d =>
    let out := applyStmts d.statements ((v[b]?).getD ∅)
    match d.terminator.kind with
    | .call _ _ (some (_, t)) _ => if s = t then propagateCallReturn out else out
    | _ => out

/-- One round of the forward solver: join the incoming edge states into
every block entry state. -/
def liveStep (mir : Body) (v : List (Finset Nat)) : List (Finset Nat) :=
  (List.range mir.blocks.length).map fun bb =>
    ((v[bb]?).getD ∅) ∪
      (List.range mir.blocks.length).foldl
        (fun acc b =>
          if bb ∈ termSuccessorsAt mir b then acc ∪ succOut mir v b bb else acc) ∅

def liveVecIter (mir : Body) : Nat → List (Finset Nat)
  | 0 => initLiveVec mir
  | n + 1 => liveStep mir (liveVecIter mir n)

/-- Entry state of block `bb` in the dataflow fixpoint. -/
def liveEntry (mir : Body) (bb : Nat) : Finset Nat :=
  ((liveVecIter mir (liveFuel mir))[bb]?).getD ∅

/-- `DataflowResultsCursor::seek` semantics: the state at `loc` reflects the
entry state of `loc.block` plus the effects of the statements with index
below `loc.statementIndex`. -/
def liveAt (mir : Body) (loc : Location) : Finset Nat :=
  match mir.blocks[loc.block]? with
  | none => liveEntry mir loc.block
  | some d => applyStmts (d.statements.take loc.statementIndex) (liveEntry mir loc.block)

/-! ## Possible-borrower relation

`PossibleBorrowerVisitor` collects directed edges `borrowed -> borrower`
into a `TransitiveRelation`; `into_map` keeps, for every non-`Copy`,
non-return local, the set of locals reachable from it through at least one
edge (the transitive closure), minus the return place. -/

/-- Locals read by an rvalue (`rvalue_locals`): the base local of every
`Copy`/`Move` operand of the rvalue shapes the lint cares about. -/
def opLocal : Operand → List Nat
  | .copy p | .move p =>
    match p.base with
    | .local l => [l]
    | _ => []
  | .const _ => []

def rvalueLocals : Rvalue → List Nat
  | .use op | .repeat op | .cast op | .unaryOp op => opLocal op
  | .aggregate ops => ops.flatMap opLocal
  | .binaryOp a b | .checkedBinaryOp a b => opLocal a ++ opLocal b
  | _ => []

/-- `PossibleBorrowerVisitor::visit_assign`: a reference creation
`lhs = &borrowed` adds the edge `borrowed -> lhs`; any other assignment
whose destination type contains a region adds `rhs -> lhs` for every local
`rhs` read by the rvalue (other than `lhs` itself). -/
def assignEdges (tys : List Ty) (p : Place) (rv : Rvalue) : List (Nat × Nat) :=
  match p.base with
  | .local lhs =>
    match rv with
    | .ref b =>
      match b.base with
      | .local bl => [(bl, lhs)]
      | _ => []
    | other =>
      if containsRegionOpt (placeTy tys p) then
        (rvalueLocals other).filterMap fun rhs =>
          if lhs ≠ rhs then some (rhs, lhs) else none
      else []
  | _ => []

/-- `PossibleBorrowerVisitor::visit_terminator`: a call whose destination
local type contains a region makes the destination a possible borrower of
every local argument. -/
def termEdges (tys : List Ty) : TerminatorKind → List (Nat × Nat)
  | .call _ args (some (dp, _)) _ =>
    match dp.base with
    | .local dest =>
      if containsRegionOpt tys[dest]? then
        args.flatMap fun op =>
          match op with
          | .copy p | .move p =>
            match p.base with
            | .local a => [(a, dest)]
            | _ => []
          | _ => []
      else []
    | _ => []
  | _ => []

/-- All borrow edges of the body, in visit order (statements of every block
then its terminator). -/
def collectEdges (mir : Body) : List (Nat × Nat) :=
  mir.blocks.flatMap fun d =>
    (d.statements.flatMap fun s =>
      match s with
      | .assign p rv => assignEdges mir.localTys p rv
      | _ => []) ++ termEdges mir.localTys d.terminator.kind

/-- Direct successors of `a` in the edge list. -/
def edgeTargets (edges : List (Nat × Nat)) (a : Nat) : Finset Nat :=
  (edges.filterMap fun e => if e.1 = a then some e.2 else none).toFinset

def reachIter (edges : List (Nat × Nat)) : Nat → Finset Nat → Finset Nat
  | 0, s => s
  | n + 1, s => reachIter edges n (s ∪ s.biUnion (edgeTargets edges))

/-- `TransitiveRelation::reachable_from`: everything reachable from `a`
through at least one edge (saturating the one-step extension; the budget
exceeds the number of possible new elements, one per edge). -/
def reachableFrom (edges : List (Nat × Nat)) (a : Nat) : Finset Nat :=
  reachIter edges (edges.length + 1) (edgeTargets edges a)

/-- `PossibleBorrowerVisitor::into_map`: rows run over locals
`1 ..< local_decls.len()`; `Copy` rows are skipped; the reachable set must
be non-empty, the return place is dropped from it, and the remainder must
still be non-empty to be recorded. -/
def possibleBorrowerMap (mir : Body) (row : Nat) : Option (Finset Nat) :=
  if row = 0 then none
  else
    match mir.localTys[row]? with
    | none => none
    | some ty =>
      if isCopy ty then none
      else
        let borrowers := reachableFrom (collectEdges mir) row
        if borrowers = ∅ then none
        else
          let bs := borrowers.erase 0
          if bs = ∅ then none else some bs

/-- `PossibleBorrower::only_borrowers`: true when the recorded borrowers of
`borrowed` whose storage is live at `loc` are exactly the candidate list
(no recorded borrowers at all answers false). -/
def onlyBorrowers (mir : Body) (borrowers : List Nat) (borrowed : Nat)
    (loc : Location) : Bool :=
  match possibleBorrowerMap mir borrowed with
  | none => false
  | some bs => decide (bs.filter (fun b => b ∈ liveAt mir loc) = borrowers.toFinset)

/-- The borrowers of `borrowed` that the analysis considers live at `loc`
(empty when `borrowed` has no recorded borrowers). -/
def liveBorrowers (mir : Body) (borrowed : Nat) (loc : Location) : Finset Nat :=
  match possibleBorrowerMap mir borrowed with
  | none => ∅
  | some bs => bs.filter fun b => b ∈ liveAt mir loc

/-! ## Call-shape recognizer and movability -/

/-- `Operand::ty().kind` being `ty::FnDef`: only a function constant has a
def id. -/
def funcDefId : Operand → Option FuncId
  | .const (.fnDef f) => some f
  | _ => none

/-- `is_call_with_ref_arg`: `y = func(x: &T)` with `T: !Copy` — a call with
exactly one argument, which moves a place with a local base whose type is
exactly one reference layer over a non-`Copy` type.  Returns the callee def
id, the argument base local, the peeled argument type and the destination
place. -/
def isCallWithRefArg (tys : List Ty) :
    TerminatorKind → Option (FuncId × Nat × Ty × Option Place)
  | .call func args dest _ =>
    match args with
    | [a] =>
      match a with
      | .move p =>
        match p.base with
        | .local l =>
          match funcDefId func with
          | some fid =>
            match placeTy tys p with
            | some ty =>
              let r := walkPtrsTyDepth ty
              if r.2 = 1 then
                if isCopy r.1 then none
                else some (fid, l, r.1, dest.map Prod.fst)
              else none
            | none => none
          | none => none
        | _ => none
      | _ => none
    | _ => none
  | _ => none

/-- `(prior chain, element)` pairs of a projection chain; the source walks
these pairs from the last element inwards, OR-accumulating flags, so
enumeration order does not matter. -/
def stepList (projs : List ProjectionElem) : List (List ProjectionElem × ProjectionElem) :=
  (List.range projs.length).filterMap fun i =>
    (projs[i]?).map fun e => (projs.take i, e)

def isDerefElem : ProjectionElem → Bool
  | .deref => true
  | _ => false

def isFieldElem : ProjectionElem → Bool
  | .field _ => true
  | _ => false

/-- `base_local_and_movability`: the base local of `place` together with
whether the place cannot be moved out of — some projection step is a
dereference, or a field access whose containing type has a destructor. -/
def baseLocalAndMovability (tys : List Ty) (p : Place) : Option (Nat × Bool) :=
  match p.base with
  | .local l =>
    let derefFlag := (stepList p.projection).any fun pr => isDerefElem pr.2
    let fieldFlag := (stepList p.projection).any fun pr =>
      isFieldElem pr.2 && hasDropOpt (localProjTy tys l pr.1)
    some (l, derefFlag || fieldFlag)
  | .static => none

/-- The `rvalue` intermediate of `find_stmt_assigns_to`: the rvalue of the
last statement of `bb` that assigns to a place whose base local is
`toLocal`. -/
def lastAssignRvalueTo (mir : Body) (bb : Nat) (toLocal : Nat) : Option Rvalue :=
  match mir.blocks[bb]? with
  | none => none
  | some d =>
    d.statements.reverse.findSome? fun stmt =>
      match stmt with
      | .assign pl v =>
        match pl.base with
        | .local l => if l = toLocal then some v else none
        | _ => none
      | _ => none

/-- `find_stmt_assigns_to`: find the last `toLocal = (&)from` of the block
and return `from`'s base local with its movability flag; `byRef` selects
between the `Ref` and the `Use(Copy)` shape. -/
def findStmtAssignsTo (mir : Body) (toLocal : Nat) (byRef : Bool) (bb : Nat) :
    Option (Nat × Bool) :=
  match lastAssignRvalueTo mir bb toLocal with
  | none => none
  | some rv =>
    match byRef, rv with
    | true, .ref p => baseLocalAndMovability mir.localTys p
    | false, .use (.copy p) => baseLocalAndMovability mir.localTys p
    | _, _ => none

/-! ## Downstream-use visitor (`LocalUseVisitor`) -/

/-- The place contexts the visitor can observe, following
`mir::visit::PlaceContext` of the source tree. -/
inductive PlaceCtx where
  | nonUseStorageLive
  | nonUseStorageDead
  | mutatingStore
  | mutatingCall
  | mutatingDrop
  | mutatingProjection
  | nonMutatingCopy
  | nonMutatingMove
  | nonMutatingSharedBorrow
  | nonMutatingProjection
deriving DecidableEq, Repr

def isMutatingCtx : PlaceCtx → Bool
  | .mutatingStore | .mutatingCall | .mutatingDrop | .mutatingProjection => true
  | _ => false

def isNonUseCtx : PlaceCtx → Bool
  | .nonUseStorageLive | .nonUseStorageDead => true
  | _ => false

/-- `LocalUseVisitor::visit_local` flags every context other than a `Drop`
mutating use and a non-use. -/
def eligibleCtx (c : PlaceCtx) : Bool :=
  !(c == PlaceCtx.mutatingDrop) && !isNonUseCtx c

/-- `Visitor::super_place`: a non-empty projection turns the context into a
projection context (mutating or not), the base local is visited with that
context, and `Index` projection locals are visited as copies. -/
def placeUses (p : Place) (ctx : PlaceCtx) : List (Nat × PlaceCtx) :=
  let ctx2 :=
    if p.projection.isEmpty then ctx
    else if isMutatingCtx ctx then PlaceCtx.mutatingProjection
    else PlaceCtx.nonMutatingProjection
  (match p.base with
   | .local l => [(l, ctx2)]
   | .static => []) ++
    p.projection.flatMap fun e =>
      match e with
      | .index l => [(l, PlaceCtx.nonMutatingCopy)]
      | _ => []

def operandUses : Operand → List (Nat × PlaceCtx)
  | .copy p => placeUses p .nonMutatingCopy
  | .move p => placeUses p .nonMutatingMove
  | .const _ => []

def rvalueUses : Rvalue → List (Nat × PlaceCtx)
  | .use op | .repeat op | .cast op | .unaryOp op => operandUses op
  | .ref p => placeUses p .nonMutatingSharedBorrow
  | .aggregate ops => ops.flatMap operandUses
  | .binaryOp a b | .checkedBinaryOp a b => operandUses a ++ operandUses b
  | .otherRv => []

/-- Locals visited by `super_statement` with their contexts. -/
def stmtLocalUses : StatementKind → List (Nat × PlaceCtx)
  | .assign p rv => placeUses p .mutatingStore ++ rvalueUses rv
  | .storageLive l => [(l, .nonUseStorageLive)]
  | .storageDead l => [(l, .nonUseStorageDead)]
  | .nop => []

/-- Locals visited by `super_terminator` with their contexts (`Return`
logically moves from the return place). -/
def termLocalUses : TerminatorKind → List (Nat × PlaceCtx)
  | .goto _ => []
  | .switchInt d _ => operandUses d
  | .call f args dest _ =>
    operandUses f ++ args.flatMap operandUses ++
      (match dest with
       | some (p, _) => placeUses p .mutatingCall
       | none => [])
  | .drop p _ _ => placeUses p .mutatingDrop
  | .ret => [(0, .nonMutatingMove)]
  | .resume => []

def stmtFlags (lcl : Nat) (s : StatementKind) : Bool :=
  (stmtLocalUses s).any fun u => eligibleCtx u.2 && (u.1 == lcl)

def termFlags (lcl : Nat) (k : TerminatorKind) : Bool :=
  (termLocalUses k).any fun u => eligibleCtx u.2 && (u.1 == lcl)

/-- `LocalUseVisitor::visit_basic_block_data`: statements in order, stopping
at the first flagged use; the terminator is visited only when no statement
flagged. -/
def visitStmts (lcl : Nat) : List StatementKind → TerminatorKind → Bool
  | [], term => termFlags lcl term
  | s :: rest, term => if stmtFlags lcl s then true else visitStmts lcl rest term

def visitBlockData (lcl : Nat) (d : BasicBlockData) : Bool :=
  visitStmts lcl d.statements d.terminator.kind

/-! ## Reverse postorder traversal from a block -/

/-- Depth-first search emitting nodes in postorder, driven by a task queue:
`Sum.inl n` means "visit `n`" (expanding, when unvisited, into visits of
its successors followed by "emit `n`"), `Sum.inr n` means "emit `n`".
Returns the visited list and the postorder list.  Structural recursion on
the fuel, which bounds the number of tasks ever processed. -/
def dfsVisit (succs : Nat → List Nat) :
    Nat → List (Sum Nat Nat) → List Nat → List Nat × List Nat
  | 0, _, visited => (visited, [])
  | _ + 1, [], visited => (visited, [])
  | fuel + 1, task :: rest, visited =>
    match task with
    | .inl n =>
      if n ∈ visited then dfsVisit succs fuel rest visited
      else
        dfsVisit succs fuel (((succs n).map Sum.inl) ++ [Sum.inr n] ++ rest)
          (n :: visited)
    | .inr n =>
      let r := dfsVisit succs fuel rest visited
      (r.1, n :: r.2)

/-- Total number of successor entries over all blocks. -/
def totalSuccCount (mir : Body) : Nat :=
  ((List.range mir.blocks.length).map fun b => (termSuccessorsAt mir b).length).sum

/-- Fuel exceeding the number of tasks the depth-first search can ever
enqueue: one initial visit, one expansion per visitable node (the root or a
successor entry), each adding one emit task and one visit task per
successor entry. -/
def dfsFuel (mir : Body) : Nat :=
  mir.blocks.length + 2 * totalSuccCount mir + 4

/-- `traversal::ReversePostorder::new(&mir, bb)`: reverse postorder of the
subgraph reachable from `bb`; its first element is `bb` itself. -/
def reversePostorderFrom (mir : Body) (bb : Nat) : List Nat :=
  ((dfsVisit (termSuccessorsAt mir) (dfsFuel mir) [Sum.inl bb] []).2).reverse

/-- The blocks inspected by the downstream-use scan: reverse postorder from
the call block, skipping the call block itself (`.skip(1)`). -/
def scannedBlocks (mir : Body) (bb : Nat) : List Nat :=
  (reversePostorderFrom mir bb).drop 1

/-- The `used_later` scan: a reachable block whose terminator loops back to
the call block counts as a use, otherwise the block is scanned by
`LocalUseVisitor`. -/
def usedLater (mir : Body) (bb : Nat) (lcl : Nat) : Bool :=
  (scannedBlocks mir bb).any fun t =>
    match mir.blocks[t]? with
    | none => false
    | some tdata =>
      (termSuccessors tdata.terminator.kind).any (fun s => s == bb) ||
        visitBlockData lcl tdata

/-! ## The per-call-site decision of `check_fn` -/

/-- `from_borrow`: the callee is `Clone::clone`, `ToOwned::to_owned`, or
`ToString::to_string` applied to a `String`. -/
def fromBorrow (f : FuncId) (argTy : Ty) : Bool :=
  f == FuncId.cloneMethod || f == FuncId.toOwnedMethod ||
    (f == FuncId.toStringMethod && tyName argTy == TyName.string)

/-- `from_deref`: not `from_borrow`, and the callee is `Path::to_path_buf`
or `OsStr::to_os_string`. -/
def fromDeref (f : FuncId) (argTy : Ty) : Bool :=
  !fromBorrow f argTy && (f == FuncId.pathToPathBuf || f == FuncId.osStrToOsString)

/-- The data fixed at the moment a call site is accepted: the argument
local, the local `check_fn` calls `local` (the value whose duplication is
redundant, field `cloned` here), the intermediate local of the
dereference-mediated shape (`inter`, the local the source calls `cloned` in
that branch; `none` in the direct shape), the movability flag that was
checked, the query location and the call span. -/
structure AcceptInfo where
  arg : Nat
  cloned : Nat
  inter : Option Nat
  cannotMoveOut : Bool
  loc : Location
  span : Span
deriving DecidableEq, Repr

/-- The borrower candidates checked for this acceptance: `[arg]` in the
direct shape, `[arg, cloned]` in the dereference-mediated shape. -/
def AcceptInfo.candidates (i : AcceptInfo) : List Nat :=
  match i.inter with
  | none => [i.arg]
  | some c => [i.arg, c]

/-- The body of the per-block loop of `check_fn`, up to (but not including)
diagnostic rendering: `none` when the call site is skipped, the acceptance
data when a diagnostic is emitted for the terminator of `bb`. -/
def checkBlock (mir : Body) (bb : Nat) : Option AcceptInfo :=
  match mir.blocks[bb]? with
  | none => none
  | some bbdata =>
    let term := bbdata.terminator
    if term.sourceInfo.fromExpansion then none
    else if bb ∈ termSuccessors term.kind then none
    else
      match isCallWithRefArg mir.localTys term.kind with
      | none => none
      | some (f, arg, argTy, _dest) =>
        if !fromBorrow f argTy && !fromDeref f argTy then none
        else
          match findStmtAssignsTo mir arg (fromBorrow f argTy) bb with
          | none => none
          | some (cloned, cannotMoveOut) =>
            let loc : Location := ⟨bb, bbdata.statements.length⟩
            let chosen : Option (Nat × Option Nat × Bool) :=
              if fromBorrow f argTy then
                if cannotMoveOut || !onlyBorrowers mir [arg] cloned loc then none
                else some (cloned, none, cannotMoveOut)
              else
                match predecessorsFor mir bb with
                | [p] =>
                  match mir.blocks[p]? with
                  | none => none
                  | some pdata =>
                    match isCallWithRefArg mir.localTys pdata.terminator.kind with
                    | some (predF, predArg, predArgTy, some res) =>
                      if res.base == PlaceBase.local cloned &&
                         predF == FuncId.derefMethod &&
                         (tyName predArgTy == TyName.pathBuf ||
                          tyName predArgTy == TyName.osString) then
                        match findStmtAssignsTo mir predArg true p with
                        | none => none
                        | some (lcl, cmo2) =>
                          if cmo2 || !onlyBorrowers mir [arg, cloned] lcl loc then none
                          else some (lcl, some cloned, cmo2)
                      else none
                    | _ => none
                | _ => none
            match chosen with
            | none => none
            | some (lcl, inter, cmo) =>
              if usedLater mir bb lcl then none
              else some ⟨arg, lcl, inter, cmo, loc, term.sourceInfo.span⟩

/-- The direct-duplication shape recognition alone: the call matches
`is_call_with_ref_arg`, the callee is a `from_borrow` one, and
`find_stmt_assigns_to` resolves the reference feeding the argument.
Returns the callee, the argument local, the `cloned` local and the
movability flag. -/
def directShape (mir : Body) (bb : Nat) : Option (FuncId × Nat × Nat × Bool) :=
  match mir.blocks[bb]? with
  | none => none
  | some d =>
    match isCallWithRefArg mir.localTys d.terminator.kind with
    | none => none
    | some (f, arg, argTy, _) =>
      if fromBorrow f argTy then
        match findStmtAssignsTo mir arg true bb with
        | none => none
        | some (cloned, cmo) => some (f, arg, cloned, cmo)
      else none

/-! ## Diagnostic rendering -/

inductive Applicability where
  | machineApplicable
  | maybeIncorrect
  | hasPlaceholders
  | unspecified
deriving DecidableEq, Repr

structure Suggestion where
  span : Span
  replacement : List Char
  applicability : Applicability
deriving DecidableEq, Repr

structure Diag where
  primarySpan : Span
  message : String
  suggestion : Option Suggestion
  note : Option (Span × String)
deriving DecidableEq, Repr

/-- `str::rfind('.')`: index of the last dot of the snippet. -/
def rfindDot (s : List Char) : Option Nat :=
  (List.range s.length).foldl
    (fun acc i => if s[i]? = some '.' then some i else acc) none

def isWhitespaceChar (c : Char) : Bool :=
  c == ' ' || c == '\t' || c == '\n' || c == '\r'

/-- `str::trim` on the ASCII snippets the lint handles. -/
def trimChars (s : List Char) : List Char :=
  ((s.dropWhile isWhitespaceChar).reverse.dropWhile isWhitespaceChar).reverse

def isAlphaUnderscoreChar (c : Char) : Bool :=
  ('a' ≤ c && c ≤ 'z') || ('A' ≤ c && c ≤ 'Z') || c == '_'

/-- `call_snip.ends_with("()")`. -/
def endsWithParens (s : List Char) : Bool :=
  decide (2 ≤ s.length) && (s.drop (s.length - 2) == ['(', ')'])

/-- Diagnostic rendering for an accepted call site with span `span` and
source snippet `snip`: when the snippet is available and contains a dot,
suggest deleting from the last dot to the end of the span, machine
applicable exactly when what follows the dot is a bare no-argument call
name, and attach the note on the part of the span before the dot;
otherwise emit the plain diagnostic on the whole span. -/
def buildDiag (snip : Option (List Char)) (span : Span) : Diag :=
  match snip with
  | some s =>
    match rfindDot s with
    | some dot =>
      let suggSpan : Span := ⟨span.lo + dot, span.hi⟩
      let callSnip := s.drop (dot + 1)
      let app :=
        if endsWithParens callSnip then
          if (trimChars (callSnip.take (callSnip.length - 2))).all isAlphaUnderscoreChar then
            Applicability.machineApplicable
          else Applicability.maybeIncorrect
        else Applicability.maybeIncorrect
      { primarySpan := suggSpan
        message := "redundant clone"
        suggestion := some ⟨suggSpan, [], app⟩
        note := some (⟨span.lo, span.lo + dot⟩,
                      "this value is dropped without further use") }
    | none =>
      { primarySpan := span, message := "redundant clone"
        suggestion := none, note := none }
  | none =>
    { primarySpan := span, message := "redundant clone"
      suggestion := none, note := none }

/-- The full per-call-site pipeline: decide acceptance, then render the
diagnostic from the snippet of the call span. -/
def emitDiag (snips : Span → Option (List Char)) (mir : Body) (bb : Nat) :
    Option Diag :=
  (checkBlock mir bb).map fun info => buildDiag (snips info.span) info.span

/-! ## Concrete bodies used to evaluate the analysis -/

/-- The unit type: `Copy`, no destructor, no region. -/
def unitTy : Ty := .adt true false false (.otherName 1) [] none

/-- A cloneable owned struct (`Foo` of the lint docs): not `Copy`. -/
def fooTy : Ty := .adt false false false (.otherName 2) [] none

def refFooTy : Ty := .ref false fooTy

def pathBufTy : Ty := .adt false true false .pathBuf [] none

def refPathBufTy : Ty := .ref false pathBufTy

def pathTy : Ty := .adt false false false (.otherName 3) [] none

def refPathTy : Ty := .ref false pathTy

/-- MIR of `{ let x = Foo::new(); drop-without-use(x.clone()); }`:

* block 0: `StorageLive(_1); _1 = const; StorageLive(_2); _2 = &_1;
  StorageLive(_3);` then `_3 = Clone::clone(move _2) -> bb1`;
* block 1: `StorageDead(_2);` then `drop(_3) -> bb2`;
* block 2: `drop(_1) -> bb3`;
* block 3: `StorageDead(_3); StorageDead(_1);` then `return`. -/
def mir0 : Body :=
  { blocks :=
      [ { statements :=
            [ .storageLive 1
            , .assign ⟨.local 1, []⟩ (.use (.const .scalar))
            , .storageLive 2
            , .assign ⟨.local 2, []⟩ (.ref ⟨.local 1, []⟩)
            , .storageLive 3 ]
        , terminator :=
            { sourceInfo := ⟨⟨10, 20⟩, false⟩
            , kind := .call (.const (.fnDef .cloneMethod)) [.move ⟨.local 2, []⟩]
                        (some (⟨.local 3, []⟩, 1)) none } }
      , { statements := [ .storageDead 2 ]
        , terminator := { sourceInfo := ⟨⟨21, 21⟩, false⟩
                        , kind := .drop ⟨.local 3, []⟩ 2 none } }
      , { statements := []
        , terminator := { sourceInfo := ⟨⟨22, 22⟩, false⟩
                        , kind := .drop ⟨.local 1, []⟩ 3 none } }
      , { statements := [ .storageDead 3, .storageDead 1 ]
        , terminator := { sourceInfo := ⟨⟨23, 23⟩, false⟩, kind := .ret } } ]
  , localTys := [unitTy, fooTy, refFooTy, fooTy]
  , argCount := 0 }

/-- The acceptance data of the call of `mir0` block 0. -/
def info0 : AcceptInfo := ⟨2, 1, none, false, ⟨0, 5⟩, ⟨10, 20⟩⟩

/-- MIR of `{ let b = PathBuf::from(..); drop-without-use(b.to_path_buf()); }`
(the dereference-mediated shape):

* block 0: `StorageLive(_1); _1 = const; StorageLive(_2); _2 = &_1;
  StorageLive(_3);` then `_3 = Deref::deref(move _2) -> bb1`
  (`_3 : &Path`);
* block 1: `StorageLive(_4); _4 = copy _3; StorageDead(_2);
  StorageLive(_5);` then `_5 = Path::to_path_buf(move _4) -> bb2`;
* block 2: `StorageDead(_4); StorageDead(_3);` then `drop(_1) -> bb3`;
* block 3: `StorageDead(_1);` then `drop(_5) -> bb4`;
* block 4: `StorageDead(_5);` then `return`. -/
def mirD : Body :=
  { blocks :=
      [ { statements :=
            [ .storageLive 1
            , .assign ⟨.local 1, []⟩ (.use (.const .scalar))
            , .storageLive 2
            , .assign ⟨.local 2, []⟩ (.ref ⟨.local 1, []⟩)
            , .storageLive 3 ]
        , terminator :=
            { sourceInfo := ⟨⟨29, 29⟩, false⟩
            , kind := .call (.const (.fnDef .derefMethod)) [.move ⟨.local 2, []⟩]
                        (some (⟨.local 3, []⟩, 1)) none } }
      , { statements :=
            [ .storageLive 4
            , .assign ⟨.local 4, []⟩ (.use (.copy ⟨.local 3, []⟩))
            , .storageDead 2
            , .storageLive 5 ]
        , terminator :=
            { sourceInfo := ⟨⟨30, 45⟩, false⟩
            , kind := .call (.const (.fnDef .pathToPathBuf)) [.move ⟨.local 4, []⟩]
                        (some (⟨.local 5, []⟩, 2)) none } }
      , { statements := [ .storageDead 4, .storageDead 3 ]
        , terminator := { sourceInfo := ⟨⟨46, 46⟩, false⟩
                        , kind := .drop ⟨.local 1, []⟩ 3 none } }
      , { statements := [ .storageDead 1 ]
        , terminator := { sourceInfo := ⟨⟨47, 47⟩, false⟩
                        , kind := .drop ⟨.local 5, []⟩ 4 none } }
      , { statements := [ .storageDead 5 ]
        , terminator := { sourceInfo := ⟨⟨48, 48⟩, false⟩, kind := .ret } } ]
  , localTys := [unitTy, pathBufTy, refPathBufTy, refPathTy, refPathTy, pathBufTy]
  , argCount := 0 }

/-- The acceptance data of the call of `mirD` block 1. -/
def infoD : AcceptInfo := ⟨4, 1, some 3, false, ⟨1, 4⟩, ⟨30, 45⟩⟩

/-- A body with a single non-`Copy` local and no borrow edges at all. -/
def mirNoBorrow : Body :=
  { blocks := [ { statements := []
                , terminator := { sourceInfo := ⟨⟨0, 0⟩, false⟩, kind := .ret } } ]
  , localTys := [unitTy, fooTy]
  , argCount := 0 }

/-- A body whose single block loops to itself. -/
def mirSelfLoop : Body :=
  { blocks := [ { statements := []
                , terminator := { sourceInfo := ⟨⟨0, 0⟩, false⟩, kind := .goto 0 } } ]
  , localTys := [unitTy]
  , argCount := 0 }

/-- A two-block loop: block 0 jumps to block 1 which jumps back. -/
def mirTwoLoop : Body :=
  { blocks := [ { statements := []
                , terminator := { sourceInfo := ⟨⟨0, 0⟩, false⟩, kind := .goto 1 } }
              , { statements := []
                , terminator := { sourceInfo := ⟨⟨1, 1⟩, false⟩, kind := .goto 0 } } ]
  , localTys := [unitTy]
  , argCount := 0 }

/-! ## Helper lemmas -/

theorem mem_foldl_insert (l : List Nat) (acc : Finset Nat) (a : Nat) :
    a ∈ l.foldl (fun s x => insert x s) acc ↔ a ∈ acc ∨ a ∈ l := by
  induction l generalizing acc with
  | nil => simp
  | cons x xs ih =>
    simp [List.foldl_cons, ih, Finset.mem_insert]
    tauto

theorem mem_startBlockEffect (mir : Body) (a : Nat) :
    a ∈ startBlockEffect mir ↔ 1 ≤ a ∧ a ≤ mir.argCount := by
  unfold startBlockEffect
  rw [mem_foldl_insert]
  simp only [Finset.not_mem_empty, false_or, List.mem_map, List.mem_range]
  constructor
  · rintro ⟨i, hi, rfl⟩
    omega
  · rintro ⟨h1, h2⟩
    exact ⟨a - 1, by omega, by omega⟩

theorem visitStmts_iff (lcl : Nat) (stmts : List StatementKind) (term : TerminatorKind) :
    visitStmts lcl stmts term = true ↔
      (∃ s ∈ stmts, stmtFlags lcl s = true) ∨ termFlags lcl term = true := by
  induction stmts with
  | nil => simp [visitStmts]
  | cons s rest ih =>
    by_cases h : stmtFlags lcl s = true
    · simp [visitStmts, h]
    · simp only [visitStmts, Bool.not_eq_true] at h ⊢
      rw [h]
      simp only [if_neg (by simp [h] : ¬ (false = true)), ih, List.mem_cons]
      constructor
      · rintro (⟨t, ht, hf⟩ | hterm)
        · exact Or.inl ⟨t, Or.inr ht, hf⟩
        · exact Or.inr hterm
      · rintro (⟨t, (rfl | ht), hf⟩ | hterm)
        · simp [hf] at h
        · exact Or.inl ⟨t, ht, hf⟩
        · exact Or.inr hterm

theorem usedLater_iff (mir : Body) (bb lcl : Nat) :
    usedLater mir bb lcl = true ↔
      ∃ t ∈ scannedBlocks mir bb, ∃ d, mir.blocks[t]? = some d ∧
        (bb ∈ termSuccessors d.terminator.kind ∨ visitBlockData lcl d = true) := by
  unfold usedLater
  rw [List.any_eq_true]
  constructor
  · rintro ⟨t, ht, hp⟩
    refine ⟨t, ht, ?_⟩
    cases hd : mir.blocks[t]? with
    | none => rw [hd] at hp; simp at hp
    | some d =>
      rw [hd] at hp
      simp only [Bool.or_eq_true, List.any_eq_true, beq_iff_eq] at hp
      refine ⟨d, rfl, ?_⟩
      rcases hp with ⟨x, hx, rfl⟩ | hv
      · exact Or.inl hx
      · exact Or.inr hv
  · rintro ⟨t, ht, d, hd, hp⟩
    refine ⟨t, ht, ?_⟩
    rw [hd]
    simp only [Bool.or_eq_true, List.any_eq_true, beq_iff_eq]
    rcases hp with hx | hv
    · exact Or.inl ⟨bb, hx, rfl⟩
    · exact Or.inr hv

theorem usedLater_of_loopback (mir : Body) (bb lcl t : Nat)
    (ht : t ∈ scannedBlocks mir bb) (hs : bb ∈ termSuccessorsAt mir t) :
    usedLater mir bb lcl = true := by
  rw [usedLater_iff]
  refine ⟨t, ht, ?_⟩
  unfold termSuccessorsAt at hs
  cases hd : mir.blocks[t]? with
  | none => rw [hd] at hs; simp at hs
  | some d =>
    rw [hd] at hs
    exact ⟨d, rfl, Or.inl hs⟩

theorem onlyBorrowers_eq_true {mir : Body} {cands : List Nat} {borrowed : Nat}
    {loc : Location} (h : onlyBorrowers mir cands borrowed loc = true) :
    liveBorrowers mir borrowed loc = cands.toFinset := by
  unfold onlyBorrowers at h
  unfold liveBorrowers
  cases hm : possibleBorrowerMap mir borrowed with
  | none => rw [hm] at h; simp at h
  | some bs =>
    rw [hm] at h
    exact of_decide_eq_true h

/-- C6: the storage-liveness dataflow starts the entry block with exactly
the argument slots live; its transfer adds `l` on `StorageLive(l)`, removes
`l` on `StorageDead(l)`, leaves the set unchanged on every other statement
and on every terminator, and a successful call return has no effect of its
own. -/
theorem claim6_storage_liveness_transfer :
    (∀ mir a, a ∈ startBlockEffect mir ↔ 1 ≤ a ∧ a ≤ mir.argCount) ∧
    (∀ l s, applyGK (statementEffect (StatementKind.storageLive l) emptyGK) s = insert l s) ∧
    (∀ l s, applyGK (statementEffect (StatementKind.storageDead l) emptyGK) s = s.erase l) ∧
    (∀ p rv s, applyGK (statementEffect (StatementKind.assign p rv) emptyGK) s = s) ∧
    (∀ s, applyGK (statementEffect StatementKind.nop emptyGK) s = s) ∧
    (∀ k s, applyGK (terminatorEffect k emptyGK) s = s) ∧
    (∀ s, propagateCallReturn s = s) := by
  refine ⟨mem_startBlockEffect, ?_, ?_, ?_, ?_, ?_, ?_⟩
  · intro l s
    ext a
    simp [applyGK, statementEffect, GenKillSet.genL, emptyGK]
    tauto
  · intro l s
    ext a
    simp [applyGK, statementEffect, GenKillSet.killL, emptyGK, Finset.mem_erase]
    tauto
  · intro p rv s
    ext a
    simp [applyGK, statementEffect, emptyGK]
  · intro s
    ext a
    simp [applyGK, statementEffect, emptyGK]
  · intro k s
    ext a
    simp [applyGK, terminatorEffect, emptyGK]
  · intro s
    rfl

/-- C9: the downstream-use visitor flags a block exactly when some statement
or the terminator mentions the candidate local in a context that is neither
a destructor invocation nor a non-use; a write to the candidate local (an
assignment whose destination base is the local) does flag it; scanning
short-circuits once a statement flags; and `used_later` holds exactly when
some scanned reachable block loops back to the call block or is flagged by
the visitor. -/
theorem claim9_local_use_visitor :
    (∀ lcl (d : BasicBlockData), visitBlockData lcl d = true ↔
       ((∃ s ∈ d.statements, stmtFlags lcl s = true) ∨
        termFlags lcl d.terminator.kind = true)) ∧
    (∀ lcl (s : StatementKind), stmtFlags lcl s = true ↔
       ∃ u ∈ stmtLocalUses s, eligibleCtx u.2 = true ∧ u.1 = lcl) ∧
    (∀ lcl (k : TerminatorKind), termFlags lcl k = true ↔
       ∃ u ∈ termLocalUses k, eligibleCtx u.2 = true ∧ u.1 = lcl) ∧
    (∀ lcl (p : Place) rv, p.base = PlaceBase.local lcl →
       stmtFlags lcl (StatementKind.assign p rv) = true) ∧
    (∀ lcl s rest term, stmtFlags lcl s = true →
       visitStmts lcl (s :: rest) term = true) ∧
    (∀ mir bb lcl, usedLater mir bb lcl = true ↔
       ∃ t ∈ scannedBlocks mir bb, ∃ d, mir.blocks[t]? = some d ∧
         (bb ∈ termSuccessors d.terminator.kind ∨ visitBlockData lcl d = true)) := by
  refine ⟨?_, ?_, ?_, ?_, ?_, usedLater_iff⟩
  · intro lcl d
    exact visitStmts_iff lcl d.statements d.terminator.kind
  · intro lcl s
    simp [stmtFlags, List.any_eq_true, Bool.and_eq_true, beq_iff_eq, and_comm]
  · intro lcl k
    simp [termFlags, List.any_eq_true, Bool.and_eq_true, beq_iff_eq, and_comm]
  · intro lcl p rv hbase
    obtain ⟨base, projs⟩ := p
    simp only at hbase
    subst hbase
    simp only [stmtFlags, stmtLocalUses, placeUses, List.any_eq_true]
    by_cases hproj : (projs : List ProjectionElem).isEmpty
    · refine ⟨(lcl, .mutatingStore), ?_, ?_⟩
      · simp [hproj]
      · simp [eligibleCtx, isNonUseCtx]
    · refine ⟨(lcl, .mutatingProjection), ?_, ?_⟩
      · simp [hproj, isMutatingCtx]
      · simp [eligibleCtx, isNonUseCtx]
  · intro lcl s rest term hf
    simp [visitStmts, hf]

/-- Everything that must have held for `checkBlock` to accept a call site. -/
theorem checkBlock_char {mir : Body} {bb : Nat} {info : AcceptInfo}
    (h : checkBlock mir bb = some info) :
    ∃ bbdata, mir.blocks[bb]? = some bbdata ∧
      bbdata.terminator.sourceInfo.fromExpansion = false ∧
      bb ∉ termSuccessors bbdata.terminator.kind ∧
      info.loc = ⟨bb, bbdata.statements.length⟩ ∧
      info.span = bbdata.terminator.sourceInfo.span ∧
      info.cannotMoveOut = false ∧
      usedLater mir bb info.cloned = false ∧
      onlyBorrowers mir info.candidates info.cloned info.loc = true ∧
      ∃ f argTy dest,
        isCallWithRefArg mir.localTys bbdata.terminator.kind =
          some (f, info.arg, argTy, dest) ∧
        ((info.inter = none ∧ fromBorrow f argTy = true ∧
           findStmtAssignsTo mir info.arg true bb = some (info.cloned, false)) ∨
         (∃ c, info.inter = some c ∧ fromBorrow f argTy = false ∧
           fromDeref f argTy = true ∧
           (∃ cmo0, findStmtAssignsTo mir info.arg false bb = some (c, cmo0)) ∧
           ∃ p pdata predF predArg predArgTy res,
             predecessorsFor mir bb = [p] ∧
             mir.blocks[p]? = some pdata ∧
             isCallWithRefArg mir.localTys pdata.terminator.kind =
               some (predF, predArg, predArgTy, some res) ∧
             res.base = PlaceBase.local c ∧
             predF = FuncId.derefMethod ∧
             (tyName predArgTy = TyName.pathBuf ∨ tyName predArgTy = TyName.osString) ∧
             findStmtAssignsTo mir predArg true p = some (info.cloned, false))) := by
  unfold checkBlock at h
  split at h
  · exact absurd h (by simp)
  next bbdata hbb =>
    simp only at h
    split at h
    · exact absurd h (by simp)
    next hexp =>
      split at h
      · exact absurd h (by simp)
      next hloop =>
        split at h
        · exact absurd h (by simp)
        next f arg argTy dest hcall =>
          split at h
          · exact absurd h (by simp)
          next hfrom =>
            split at h
            · exact absurd h (by simp)
            next cloned cannotMoveOut hfind =>
              split at h
              · exact absurd h (by simp)
              next lcl inter cmo hchosen =>
                split at h
                · exact absurd h (by simp)
                next hused =>
                  injection h with hinfo
                  subst hinfo
                  simp only [Bool.not_eq_true] at hexp hused
                  split at hchosen
                  · -- direct shape
                    next hfb =>
                    split at hchosen
                    · exact absurd hchosen (by simp)
                    next hguard =>
                      simp only [Option.some.injEq, Prod.mk.injEq] at hchosen
                      obtain ⟨rfl, rfl, rfl⟩ := hchosen
                      have h1 : cannotMoveOut = false := by
                        revert hguard; cases cannotMoveOut <;> simp
                      have h2 : onlyBorrowers mir [arg] cloned
                          ⟨bb, bbdata.statements.length⟩ = true := by
                        revert hguard
                        cases honly : onlyBorrowers mir [arg] cloned
                          ⟨bb, bbdata.statements.length⟩ <;> simp
                      refine ⟨bbdata, hbb, hexp, hloop, rfl, rfl, h1, hused, ?_,
                        f, argTy, dest, hcall, Or.inl ⟨rfl, hfb, ?_⟩⟩
                      · simpa [AcceptInfo.candidates] using h2
                      · rw [hfb] at hfind
                        rw [h1] at hfind
                        exact hfind
                  · -- dereference-mediated shape
                    next hfb =>
                    have hfb2 : fromBorrow f argTy = false := by
                      revert hfb; cases fromBorrow f argTy <;> simp
                    have hfd : fromDeref f argTy = true := by
                      revert hfrom; rw [hfb2]
                      cases fromDeref f argTy <;> simp
                    split at hchosen <;> try (exfalso; exact Option.noConfusion hchosen)
                    rename_i p hps
                    split at hchosen <;> try (exfalso; exact Option.noConfusion hchosen)
                    rename_i pdata hpd
                    split at hchosen <;> try (exfalso; exact Option.noConfusion hchosen)
                    rename_i predF predArg predArgTy res hpredcall
                    split at hchosen <;> try (exfalso; exact Option.noConfusion hchosen)
                    rename_i hguardB
                    split at hchosen <;> try (exfalso; exact Option.noConfusion hchosen)
                    rename_i lcl2 cmo2 hfind2
                    split at hchosen <;> try (exfalso; exact Option.noConfusion hchosen)
                    rename_i hguard2
                    simp only [Option.some.injEq, Prod.mk.injEq] at hchosen
                    obtain ⟨rfl, rfl, rfl⟩ := hchosen
                    have h1 : cmo2 = false := by
                      revert hguard2; cases cmo2 <;> simp
                    have h2 : onlyBorrowers mir [arg, cloned] lcl2
                        ⟨bb, bbdata.statements.length⟩ = true := by
                      revert hguard2
                      cases honly : onlyBorrowers mir [arg, cloned] lcl2
                        ⟨bb, bbdata.statements.length⟩ <;> simp
                    simp only [Bool.and_eq_true, Bool.or_eq_true,
                      beq_iff_eq] at hguardB
                    obtain ⟨⟨hres, hpredF⟩, hpredTy⟩ := hguardB
                    refine ⟨bbdata, hbb, hexp, hloop, rfl, rfl, h1, hused, ?_,
                      f, argTy, dest, hcall,
                      Or.inr ⟨cloned, rfl, hfb2, hfd,
                        ⟨cannotMoveOut, by rwa [hfb2] at hfind⟩,
                        p, pdata, predF, predArg, predArgTy, res,
                        hps, hpd, hpredcall, hres, hpredF, hpredTy, ?_⟩⟩
                    · simpa [AcceptInfo.candidates] using h2
                    · rw [h1] at hfind2
                      exact hfind2
/-- What `is_call_with_ref_arg` returning `some` says about the terminator. -/
theorem isCallWithRefArg_char {tys : List Ty} {k : TerminatorKind} {f : FuncId}
    {arg : Nat} {argTy : Ty} {dest : Option Place}
    (h : isCallWithRefArg tys k = some (f, arg, argTy, dest)) :
    ∃ func args destOpt cleanup,
      k = TerminatorKind.call func args destOpt cleanup ∧
      funcDefId func = some f ∧
      (∃ p : Place, args = [Operand.move p] ∧ p.base = PlaceBase.local arg ∧
        ∃ ty, placeTy tys p = some ty ∧ walkPtrsTyDepth ty = (argTy, 1) ∧
          isCopy argTy = false) ∧
      dest = destOpt.map Prod.fst := by
  unfold isCallWithRefArg at h
  split at h <;> try (exfalso; exact Option.noConfusion h)
  rename_i func args destOpt cleanup
  split at h <;> try (exfalso; exact Option.noConfusion h)
  rename_i a
  split at h <;> try (exfalso; exact Option.noConfusion h)
  rename_i p
  split at h <;> try (exfalso; exact Option.noConfusion h)
  rename_i l hbase
  split at h <;> try (exfalso; exact Option.noConfusion h)
  rename_i fid hfid
  split at h <;> try (exfalso; exact Option.noConfusion h)
  rename_i ty hty
  dsimp only at h
  split at h <;> try (exfalso; exact Option.noConfusion h)
  rename_i hdepth
  split at h <;> try (exfalso; exact Option.noConfusion h)
  rename_i hcopy
  simp only [Option.some.injEq, Prod.mk.injEq] at h
  obtain ⟨rfl, rfl, rfl, rfl⟩ := h
  refine ⟨func, [Operand.move p], destOpt, cleanup, rfl, hfid,
    ⟨p, rfl, hbase, ty, hty, ?_, by simpa using hcopy⟩, rfl⟩
  rw [Prod.ext_iff]
  exact ⟨rfl, hdepth⟩

/-- What `find_stmt_assigns_to` returning `some` says about the block. -/
theorem findStmtAssignsTo_char {mir : Body} {toLocal : Nat} {byRef : Bool}
    {bb : Nat} {out : Nat × Bool}
    (h : findStmtAssignsTo mir toLocal byRef bb = some out) :
    ∃ rv, lastAssignRvalueTo mir bb toLocal = some rv ∧
      ((byRef = true ∧ ∃ place, rv = Rvalue.ref place ∧
          baseLocalAndMovability mir.localTys place = some out) ∨
       (byRef = false ∧ ∃ place, rv = Rvalue.use (Operand.copy place) ∧
          baseLocalAndMovability mir.localTys place = some out)) := by
  unfold findStmtAssignsTo at h
  split at h
  · exact absurd h (by simp)
  next rv hlast =>
    split at h <;> try (exfalso; exact Option.noConfusion h)
    · next place => exact ⟨Rvalue.ref place, hlast, Or.inl ⟨rfl, place, rfl, h⟩⟩
    · next place =>
        exact ⟨Rvalue.use (Operand.copy place), hlast, Or.inr ⟨rfl, place, rfl, h⟩⟩

/-- `buildDiag` always carries the fixed lint message. -/
theorem buildDiag_message (snip : Option (List Char)) (span : Span) :
    (buildDiag snip span).message = "redundant clone" := by
  unfold buildDiag
  split
  · split <;> rfl
  · rfl

/-- C1: a diagnostic is emitted for a call terminator only if the recognizer
matched (the call is `is_call_with_ref_arg` with a `from_borrow` or
`from_deref` callee), movability was granted, `only_borrowers` answered
true for the relevant candidate set (`[arg]` direct, `[arg, cloned]`
dereference-mediated) at the location just before the call, and
`used_later` is false; consequently every live recorded borrower of the
accepted local lies in the candidate set, so a second live borrower
prevents acceptance. -/
theorem claim1_acceptance_soundness :
    ∀ (snips : Span → Option (List Char)) (mir : Body) (bb : Nat) (d : Diag),
      emitDiag snips mir bb = some d →
      d.message = "redundant clone" ∧
      ∃ info bbdata f argTy dest,
        checkBlock mir bb = some info ∧
        mir.blocks[bb]? = some bbdata ∧
        isCallWithRefArg mir.localTys bbdata.terminator.kind =
          some (f, info.arg, argTy, dest) ∧
        (fromBorrow f argTy = true ∨ fromDeref f argTy = true) ∧
        info.cannotMoveOut = false ∧
        info.loc = ⟨bb, bbdata.statements.length⟩ ∧
        ((info.inter = none ∧ info.candidates = [info.arg] ∧
            findStmtAssignsTo mir info.arg true bb = some (info.cloned, false)) ∨
         (∃ c, info.inter = some c ∧ info.candidates = [info.arg, c])) ∧
        onlyBorrowers mir info.candidates info.cloned info.loc = true ∧
        usedLater mir bb info.cloned = false ∧
        ∀ b, b ∈ liveBorrowers mir info.cloned info.loc → b ∈ info.candidates := by
  intro snips mir bb d h
  unfold emitDiag at h
  rw [Option.map_eq_some'] at h
  obtain ⟨info, hcb, hd⟩ := h
  subst hd
  refine ⟨buildDiag_message _ _, info, ?_⟩
  obtain ⟨bbdata, hbb, _, _, hloc, _, hcmo, hused, honly, f, argTy, dest, hcall, hbr⟩ :=
    checkBlock_char hcb
  refine ⟨bbdata, f, argTy, dest, hcb, hbb, hcall, ?_, hcmo, hloc, ?_, honly, hused, ?_⟩
  · rcases hbr with ⟨_, hfb, _⟩ | ⟨c, _, _, hfd, _⟩
    · exact Or.inl hfb
    · exact Or.inr hfd
  · rcases hbr with ⟨hnone, _, hfind⟩ | ⟨c, hsome, _⟩
    · refine Or.inl ⟨hnone, ?_, ?_⟩
      · simp [AcceptInfo.candidates, hnone]
      · rw [← hcmo] at hfind
        rw [← hcmo]
        exact hfind
    · exact Or.inr ⟨c, hsome, by simp [AcceptInfo.candidates, hsome]⟩
  · intro b hb
    rw [onlyBorrowers_eq_true honly] at hb
    exact List.mem_toFinset.mp hb

/-- C5: a call site whose block is among its own terminator successors is
never accepted, and a call site from which the downstream scan reaches a
block whose terminator has the call block among its successors is never
accepted either. -/
theorem claim5_loop_safety :
    ∀ (mir : Body) (bb : Nat),
      (bb ∈ termSuccessorsAt mir bb → checkBlock mir bb = none) ∧
      (∀ t, t ∈ scannedBlocks mir bb → bb ∈ termSuccessorsAt mir t →
        checkBlock mir bb = none) := by
  intro mir bb
  constructor
  · intro hself
    cases h : checkBlock mir bb with
    | none => rfl
    | some info =>
      exfalso
      obtain ⟨bbdata, hbb, _, hloop, _⟩ := checkBlock_char h
      unfold termSuccessorsAt at hself
      rw [hbb] at hself
      exact hloop hself
  · intro t ht hs
    cases h : checkBlock mir bb with
    | none => rfl
    | some info =>
      exfalso
      obtain ⟨bbdata, hbb, _, _, _, _, _, hused, _⟩ := checkBlock_char h
      have := usedLater_of_loopback mir bb info.cloned t ht hs
      rw [hused] at this
      exact Bool.false_ne_true this

/-- C7: an accepted dereference-mediated call site has exactly the shape the
source requires: the direct `from_borrow` check failed, the callee is a
`from_deref` one, the block has a unique predecessor whose terminator is a
`deref` call on a `PathBuf` or `OsString` receiver writing the intermediate
local that feeds this call through a copy, the true source is found by the
reference-assignment pattern one block back, and `only_borrowers` held for
`[arg, cloned]`. -/
theorem claim7_deref_mediated_shape :
    ∀ (mir : Body) (bb : Nat) (info : AcceptInfo) (c : Nat),
      checkBlock mir bb = some info → info.inter = some c →
      ∃ bbdata f argTy dest,
        mir.blocks[bb]? = some bbdata ∧
        isCallWithRefArg mir.localTys bbdata.terminator.kind =
          some (f, info.arg, argTy, dest) ∧
        fromBorrow f argTy = false ∧
        fromDeref f argTy = true ∧
        (∃ cmo0, findStmtAssignsTo mir info.arg false bb = some (c, cmo0)) ∧
        ∃ p pdata predF predArg predArgTy res,
          predecessorsFor mir bb = [p] ∧
          mir.blocks[p]? = some pdata ∧
          isCallWithRefArg mir.localTys pdata.terminator.kind =
            some (predF, predArg, predArgTy, some res) ∧
          res.base = PlaceBase.local c ∧
          predF = FuncId.derefMethod ∧
          (tyName predArgTy = TyName.pathBuf ∨ tyName predArgTy = TyName.osString) ∧
          findStmtAssignsTo mir predArg true p = some (info.cloned, false) ∧
          info.cannotMoveOut = false ∧
          onlyBorrowers mir [info.arg, c] info.cloned info.loc = true := by
  intro mir bb info c hcb hinter
  obtain ⟨bbdata, hbb, _, _, _, _, hcmo, _, honly, f, argTy, dest, hcall, hbr⟩ :=
    checkBlock_char hcb
  rcases hbr with ⟨hnone, _, _⟩ | ⟨c2, hsome, hfb, hfd, hfind0, rest⟩
  · rw [hnone] at hinter
    exact absurd hinter (by simp)
  · rw [hsome] at hinter
    injection hinter with hc
    subst hc
    obtain ⟨p, pdata, predF, predArg, predArgTy, res, hps, hpd, hpredcall, hres,
      hpredF, hpredTy, hfindp⟩ := rest
    refine ⟨bbdata, f, argTy, dest, hbb, hcall, hfb, hfd, hfind0,
      p, pdata, predF, predArg, predArgTy, res, hps, hpd, hpredcall, hres,
      hpredF, hpredTy, hfindp, hcmo, ?_⟩
    have : info.candidates = [info.arg, c2] := by
      simp [AcceptInfo.candidates, hsome]
    rw [this] at honly
    exact honly

/-- C4: `base_local_and_movability` denies movability exactly when some
projection step is a dereference or a field access whose containing type
has a destructor, returning the base local with the flag; and every
accepted call site had movability granted. -/
theorem claim4_movability :
    (∀ (tys : List Ty) (p : Place) (l : Nat), p.base = PlaceBase.local l →
       ∃ c, baseLocalAndMovability tys p = some (l, c) ∧
         (c = true ↔ ∃ pr ∈ stepList p.projection,
            isDerefElem pr.2 = true ∨
              (isFieldElem pr.2 = true ∧ hasDropOpt (localProjTy tys l pr.1) = true))) ∧
    (∀ (mir : Body) (bb : Nat) (info : AcceptInfo),
       checkBlock mir bb = some info → info.cannotMoveOut = false) := by
  constructor
  · intro tys p l hbase
    obtain ⟨base, projs⟩ := p
    simp only at hbase
    subst hbase
    refine ⟨_, rfl, ?_⟩
    simp only [baseLocalAndMovability, Bool.or_eq_true, List.any_eq_true,
      Bool.and_eq_true]
    constructor
    · rintro (⟨pr, hm, hd⟩ | ⟨pr, hm, hf, hdrop⟩)
      · exact ⟨pr, hm, Or.inl hd⟩
      · exact ⟨pr, hm, Or.inr ⟨hf, hdrop⟩⟩
    · rintro ⟨pr, hm, hd | ⟨hf, hdrop⟩⟩
      · exact Or.inl ⟨pr, hm, hd⟩
      · exact Or.inr ⟨pr, hm, hf, hdrop⟩
  · intro mir bb info h
    obtain ⟨_, _, _, _, _, _, hcmo, _⟩ := checkBlock_char h
    exact hcmo

/-- C2 (counterexample): as stated, `only_borrowers` is not equivalent to
"the live transitive borrowers equal the candidate set": on a body with no
borrow edges, the empty candidate set makes the right-hand side true while
`only_borrowers` answers false (a local with no recorded borrowers is
always rejected). -/
theorem claim2_counterexample :
    ¬ (onlyBorrowers mirNoBorrow [] 1 ⟨0, 0⟩ = true ↔
       (reachableFrom (collectEdges mirNoBorrow) 1).filter
           (fun b => b ∈ liveAt mirNoBorrow ⟨0, 0⟩) =
         ([] : List Nat).toFinset) := by
  decide

/-- C2 (amended): `only_borrowers(candidates, borrowed, at)` answers true
iff `borrowed` is a tracked key — a non-return local of non-`Copy` type
with at least one transitive borrower other than the return place — and the
set of its transitive borrowers other than the return place whose storage
is live at `at` equals the candidate set. -/
theorem claim2_only_borrowers_amended :
    ∀ (mir : Body) (cands : List Nat) (borrowed : Nat) (loc : Location),
      onlyBorrowers mir cands borrowed loc = true ↔
        (borrowed ≠ 0 ∧
         (∃ ty, mir.localTys[borrowed]? = some ty ∧ isCopy ty = false) ∧
         (reachableFrom (collectEdges mir) borrowed).erase 0 ≠ ∅ ∧
         ((reachableFrom (collectEdges mir) borrowed).erase 0).filter
             (fun b => b ∈ liveAt mir loc) = cands.toFinset) := by
  intro mir cands borrowed loc
  unfold onlyBorrowers possibleBorrowerMap
  by_cases h0 : borrowed = 0
  · simp [h0]
  · simp only [if_neg h0, ne_eq, h0, not_false_iff, true_and]
    cases hty : mir.localTys[borrowed]? with
    | none => simp
    | some ty =>
      by_cases hcopy : isCopy ty = true
      · simp [hcopy]
      · simp only [Bool.not_eq_true] at hcopy
        simp only [hcopy, Bool.false_eq_true, if_false, Option.some.injEq]
        by_cases hne : reachableFrom (collectEdges mir) borrowed = ∅
        · have hbs : (reachableFrom (collectEdges mir) borrowed).erase 0 = ∅ := by
            rw [hne]; rfl
          simp [hne, hbs]
        · by_cases hbs : (reachableFrom (collectEdges mir) borrowed).erase 0 = ∅
          · simp [hne, hbs]
          · simp only [if_neg hne, if_neg hbs, decide_eq_true_eq]
            constructor
            · intro hfilter
              exact ⟨⟨ty, rfl, hcopy⟩, hbs, hfilter⟩
            · rintro ⟨_, _, hfilter⟩
              exact hfilter

/-- C3 (counterexample): the direct-duplication shape matches on `mir0`
block 0, yet the statement immediately preceding the call is
`StorageLive(_3)`, not an assignment of the form `arg = &source` — the
recognizer only requires the last assignment to the argument slot to have
that form, not the immediately preceding statement. -/
theorem claim3_counterexample :
    directShape mir0 0 = some (FuncId.cloneMethod, 2, 1, false) ∧
    (mir0.blocks[0]?).bind (fun d => d.statements.getLast?) =
      some (StatementKind.storageLive 3) := by
  constructor
  · decide
  · decide

/-- C3 (amended): a call matches the direct-duplication shape only when it
has exactly one argument, a `Move` of a place with a local base whose type
is one reference layer over a non-`Copy` type, the callee is a known
duplication operation (with the stringify operation restricted to
`String`), and the last assignment in the block whose destination base
local is the argument slot has the form `arg = &source_place`; `cloned` is
`source_place`'s base local and the flag is its movability verdict. -/
theorem claim3_direct_shape_amended :
    ∀ (mir : Body) (bb : Nat) (f : FuncId) (arg cloned : Nat) (cmo : Bool),
      directShape mir bb = some (f, arg, cloned, cmo) →
      ∃ bbdata func args dest cleanup,
        mir.blocks[bb]? = some bbdata ∧
        bbdata.terminator.kind = TerminatorKind.call func args dest cleanup ∧
        funcDefId func = some f ∧
        (∃ p : Place, args = [Operand.move p] ∧ p.base = PlaceBase.local arg ∧
          ∃ ty, placeTy mir.localTys p = some ty ∧
            (walkPtrsTyDepth ty).2 = 1 ∧
            isCopy (walkPtrsTyDepth ty).1 = false ∧
            fromBorrow f (walkPtrsTyDepth ty).1 = true) ∧
        ∃ place, lastAssignRvalueTo mir bb arg = some (Rvalue.ref place) ∧
          baseLocalAndMovability mir.localTys place = some (cloned, cmo) := by
  intro mir bb f arg cloned cmo h
  unfold directShape at h
  split at h
  · exact absurd h (by simp)
  next bbdata hbb =>
    split at h <;> try (exfalso; exact Option.noConfusion h)
    rename_i f2 arg2 argTy dest2 hcall
    split at h
    swap
    · exact absurd h (by simp)
    next hfb =>
      split at h
      · exact absurd h (by simp)
      next cloned2 cmo2 hfind =>
        simp only [Option.some.injEq, Prod.mk.injEq] at h
        obtain ⟨rfl, rfl, rfl, rfl⟩ := h
        obtain ⟨func, args, destOpt, cleanup, hk, hfid, ⟨p, hargs, hpbase, ty, hty,
          hwalk, hcopy⟩, hdest⟩ := isCallWithRefArg_char hcall
        obtain ⟨rv, hlast, hshape⟩ := findStmtAssignsTo_char hfind
        rcases hshape with ⟨_, place, rfl, hbase⟩ | ⟨habs, _⟩
        · refine ⟨bbdata, func, args, destOpt, cleanup, hbb, hk, hfid,
            ⟨p, hargs, hpbase, ty, hty, ?_, ?_, ?_⟩, place, hlast, hbase⟩
          · rw [hwalk]
          · rw [hwalk]
            simpa using hcopy
          · rw [hwalk]
            exact hfb
        · exact absurd habs (by simp)

/-- C8: when the snippet of an accepted call site contains a dot, the
suggested edit replaces the text from the last dot to the end of the span
with the empty string (the primary span, the suggestion span and the note
span are derived from the dot position), the edit is machine applicable iff
the removed call text ends in `()` and the name left after stripping the
parentheses and surrounding whitespace is all ASCII alphabetic or
underscore, and the note is attached on the portion of the span before the
dot. -/
theorem claim8_suggested_edit :
    ∀ (snips : Span → Option (List Char)) (mir : Body) (bb : Nat)
      (info : AcceptInfo) (s : List Char) (dot : Nat),
      checkBlock mir bb = some info →
      snips info.span = some s →
      rfindDot s = some dot →
      ∃ app,
        emitDiag snips mir bb = some
          { primarySpan := ⟨info.span.lo + dot, info.span.hi⟩
            message := "redundant clone"
            suggestion := some ⟨⟨info.span.lo + dot, info.span.hi⟩, [], app⟩
            note := some (⟨info.span.lo, info.span.lo + dot⟩,
                          "this value is dropped without further use") } ∧
        (app = Applicability.machineApplicable ↔
          (endsWithParens (s.drop (dot + 1)) = true ∧
           (trimChars ((s.drop (dot + 1)).take ((s.drop (dot + 1)).length - 2))).all
              isAlphaUnderscoreChar = true)) := by
  intro snips mir bb info s dot hcb hsnip hdot
  have he : emitDiag snips mir bb = some (buildDiag (snips info.span) info.span) := by
    unfold emitDiag
    rw [hcb]
    rfl
  rw [he, hsnip]
  simp only [buildDiag, hdot]
  by_cases h1 : endsWithParens (s.drop (dot + 1)) = true
  · by_cases h2 : (trimChars (List.take (s.length - (dot + 1) - 2)
        (List.drop (dot + 1) s))).all isAlphaUnderscoreChar = true
    · exact ⟨Applicability.machineApplicable, by simp [h1, h2], by simp [h1, h2]⟩
    · exact ⟨Applicability.maybeIncorrect, by simp [h1, h2], by simp [h2]⟩
  · exact ⟨Applicability.maybeIncorrect, by simp [h1], by simp [h1]⟩

/-- C10: when the snippet of an accepted call site is unavailable or has no
dot, a diagnostic is still emitted, on the full call span, with no
suggestion and no note. -/
theorem claim10_plain_diagnostic :
    ∀ (snips : Span → Option (List Char)) (mir : Body) (bb : Nat)
      (info : AcceptInfo),
      checkBlock mir bb = some info →
      (snips info.span = none ∨
        ∃ s, snips info.span = some s ∧ rfindDot s = none) →
      emitDiag snips mir bb = some
        { primarySpan := info.span, message := "redundant clone"
          suggestion := none, note := none } := by
  intro snips mir bb info hcb hsnip
  have he : emitDiag snips mir bb = some (buildDiag (snips info.span) info.span) := by
    unfold emitDiag
    rw [hcb]
    rfl
  rw [he]
  rcases hsnip with hnone | ⟨s, hs, hdot⟩
  · rw [hnone]
    rfl
  · rw [hs]
    simp only [buildDiag, hdot]

/-! ## Witnesses -/

set_option maxRecDepth 40000 in
theorem claim1_witness :
    ∃ info : AcceptInfo, checkBlock mir0 0 = some info ∧
      usedLater mir0 0 info.cloned = false ∧
      onlyBorrowers mir0 info.candidates info.cloned info.loc = true := by
  obtain ⟨-, info, bbdata, f, argTy, dest, hcb, -, -, -, -, -, -, honly, hused, -⟩ :=
    claim1_acceptance_soundness (fun _ => none) mir0 0
      { primarySpan := ⟨10, 20⟩, message := "redundant clone"
        suggestion := none, note := none } (by decide)
  exact ⟨info, hcb, hused, honly⟩

set_option maxRecDepth 40000 in
theorem claim3_witness :
    ∃ place, lastAssignRvalueTo mir0 0 2 = some (Rvalue.ref place) ∧
      baseLocalAndMovability mir0.localTys place = some (1, false) := by
  obtain ⟨bbdata, func, args, dest, cleanup, -, -, -, -, place, hlast, hbase⟩ :=
    claim3_direct_shape_amended mir0 0 FuncId.cloneMethod 2 1 false (by decide)
  exact ⟨place, hlast, hbase⟩

set_option maxRecDepth 40000 in
theorem claim4_witness :
    (∃ c, baseLocalAndMovability [] ⟨PlaceBase.local 5, []⟩ = some (5, c)) ∧
    info0.cannotMoveOut = false := by
  obtain ⟨c, hc, -⟩ := claim4_movability.1 [] ⟨PlaceBase.local 5, []⟩ 5 rfl
  exact ⟨⟨c, hc⟩, claim4_movability.2 mir0 0 info0 (by decide)⟩

theorem claim5_witness :
    checkBlock mirSelfLoop 0 = none ∧ checkBlock mirTwoLoop 0 = none :=
  ⟨(claim5_loop_safety mirSelfLoop 0).1 (by decide),
   (claim5_loop_safety mirTwoLoop 0).2 1 (by decide) (by decide)⟩

set_option maxRecDepth 40000 in
theorem claim7_witness :
    ∃ p, predecessorsFor mirD 1 = [p] ∧
      onlyBorrowers mirD [infoD.arg, 3] infoD.cloned infoD.loc = true := by
  obtain ⟨bbdata, f, argTy, dest, -, -, -, -, -, p, pdata, predF, predArg, predArgTy,
    res, hps, -, -, -, -, -, -, -, honly⟩ :=
    claim7_deref_mediated_shape mirD 1 infoD 3 (by decide) rfl
  exact ⟨p, hps, honly⟩

set_option maxRecDepth 40000 in
theorem claim8_witness :
    ∃ app, emitDiag (fun _ => some ("x.clone()".toList)) mir0 0 = some
      { primarySpan := ⟨info0.span.lo + 1, info0.span.hi⟩
        message := "redundant clone"
        suggestion := some ⟨⟨info0.span.lo + 1, info0.span.hi⟩, [], app⟩
        note := some (⟨info0.span.lo, info0.span.lo + 1⟩,
                      "this value is dropped without further use") } := by
  obtain ⟨app, happ, -⟩ :=
    claim8_suggested_edit (fun _ => some ("x.clone()".toList)) mir0 0 info0
      ("x.clone()".toList) 1 (by decide) rfl (by decide)
  exact ⟨app, happ⟩

theorem claim9_witness :
    stmtFlags 1 (StatementKind.assign ⟨PlaceBase.local 1, []⟩
      (Rvalue.use (Operand.const ConstVal.scalar))) = true ∧
    visitStmts 1 [StatementKind.assign ⟨PlaceBase.local 1, []⟩
      (Rvalue.use (Operand.const ConstVal.scalar))] TerminatorKind.ret = true := by
  have h := claim9_local_use_visitor.2.2.2.1 1 ⟨PlaceBase.local 1, []⟩
    (Rvalue.use (Operand.const ConstVal.scalar)) rfl
  exact ⟨h, claim9_local_use_visitor.2.2.2.2.1 1 _ [] TerminatorKind.ret h⟩

set_option maxRecDepth 40000 in
theorem claim10_witness :
    emitDiag (fun _ => none) mir0 0 = some
      { primarySpan := info0.span, message := "redundant clone"
        suggestion := none, note := none } :=
  claim10_plain_diagnostic (fun _ => none) mir0 0 info0 (by decide) (Or.inl rfl)

end RedundantClone
